import Mathlib

/-!
A shallow embedding of the NTP clock-filter and selection core of this
repository (`src/ntp-proto/src/filter.rs`), together with theorems checking
the natural-language specification against it.

The fixed-point time types (`NtpTimestamp`, `NtpDuration`) and the parsed
packet header live outside the provided sources; they are modelled from the
specification (spec.md §3 and §6) as unbounded integers counting Q32.32
fixed-point units (one unit is 2^-32 seconds).  Everything else is a direct
translation of `filter.rs`.
-/

namespace NtpProto

/-- Modelled from the spec: `NtpDuration` is a signed 64-bit Q32.32
fixed-point number of seconds; we model its value as an unbounded integer
counting units of 2^-32 seconds.  Scalar division in the source is Rust
`i64` division, which truncates toward zero, hence `Int.tdiv` below. -/
abbrev NtpDuration := Int

/-- Modelled from the spec: `NtpTimestamp` is a 64-bit Q32.32 timestamp;
subtraction of two timestamps yields an `NtpDuration`.  Era wrap-around is
handled by the caller (spec §3), so we model the value as an integer. -/
abbrev NtpTimestamp := Int

/-- Modelled from the spec: `NtpDuration::ONE` is one second. -/
def NtpDuration.ONE : NtpDuration := 2 ^ 32

/-- Modelled from the spec: `MAX_DISPERSION` is 16 seconds. -/
def NtpDuration.MAX_DISPERSION : NtpDuration := 16 * 2 ^ 32

/-- Modelled from the spec: `MIN_DISPERSION` is about one millisecond. -/
def NtpDuration.MIN_DISPERSION : NtpDuration := Int.tdiv (2 ^ 32) 1000

/-- Modelled from the spec: construction from a signed exponent e yields
2^e seconds (shifting the one-second constant). -/
def NtpDuration.from_exponent (e : Int) : NtpDuration :=
  if 0 ≤ e then 2 ^ (32 + e.toNat) else Int.tdiv (2 ^ 32) (2 ^ (-e).toNat)

/-- `MAX_STRATUM` from `filter.rs`. -/
def MAX_STRATUM : Nat := 16

/-- `MAX_DISTANCE` from `filter.rs`: one second. -/
def MAX_DISTANCE : NtpDuration := NtpDuration.ONE

/-- `BURST_INTERVAL` from `filter.rs`: two seconds. -/
def BURST_INTERVAL : NtpDuration := NtpDuration.ONE * 2

/-- `multiply_by_phi` from `filter.rs`: frequency tolerance of 15 ppm,
computed in fixed point as `(duration * 15) / 1_000_000`. -/
def multiply_by_phi (duration : NtpDuration) : NtpDuration :=
  Int.tdiv (duration * 15) 1000000

/-- Modelled from the spec: the leap indicator of a parsed header,
with variants NoWarning, Last61, Last59, Unknown (spec §6). -/
inductive NtpLeapIndicator
  | NoWarning
  | Last61
  | Last59
  | Unknown
deriving DecidableEq

/-- Modelled from the spec: a leap indicator signals a synchronized server
unless it is Unknown. -/
def NtpLeapIndicator.is_synchronized : NtpLeapIndicator → Bool
  | .Unknown => false
  | _ => true

/-- Modelled from the spec: the association mode of a parsed header. -/
inductive NtpAssociationMode
  | SymmetricActive
  | SymmetricPassive
  | Client
  | Server
  | Broadcast
  | Control
deriving DecidableEq

/-- Modelled from the spec: the parsed packet header fields consumed by the
filter core (spec §6).  `stratum` is a `u8`, `poll` and `precision` are
signed exponents, `reference_id` is an opaque 32-bit value. -/
structure NtpHeader where
  leap : NtpLeapIndicator
  mode : NtpAssociationMode
  stratum : Nat
  poll : Int
  precision : Int
  root_delay : NtpDuration
  root_dispersion : NtpDuration
  reference_id : Nat
  reference_timestamp : NtpTimestamp
  origin_timestamp : NtpTimestamp
  receive_timestamp : NtpTimestamp
  transmit_timestamp : NtpTimestamp
deriving DecidableEq

/-- `FilterTuple` from `filter.rs`. -/
structure FilterTuple where
  offset : NtpDuration
  delay : NtpDuration
  dispersion : NtpDuration
  time : NtpTimestamp
deriving DecidableEq

/-- `FilterTuple::DUMMY` from `filter.rs`: offset zero, delay and dispersion
`MAX_DISPERSION`, time zero. -/
def FilterTuple.DUMMY : FilterTuple :=
  { offset := 0
    delay := NtpDuration.MAX_DISPERSION
    dispersion := NtpDuration.MAX_DISPERSION
    time := 0 }

/-- `FilterTuple::is_dummy` from `filter.rs`: value equality with the dummy. -/
def FilterTuple.is_dummy (t : FilterTuple) : Bool :=
  decide (t = FilterTuple.DUMMY)

/-- `FilterTuple::from_packet` from `filter.rs`.  The broadcast arm is a
`todo!()` panic in the source; it is modelled as `none` (the unimplemented
marker the spec prescribes), every other mode produces the sample. -/
def FilterTuple.from_packet (packet : NtpHeader) (system_precision : NtpDuration)
    (destination_timestamp : NtpTimestamp) (local_clock_time : NtpTimestamp) :
    Option FilterTuple :=
  let packet_precision := NtpDuration.from_exponent packet.precision
  match packet.mode with
  | .Broadcast => none
  | _ =>
    let offset1 := packet.receive_timestamp - packet.origin_timestamp
    let offset2 := destination_timestamp - packet.transmit_timestamp
    let offset := Int.tdiv (offset1 + offset2) 2
    let delta1 := destination_timestamp - packet.origin_timestamp
    let delta2 := packet.transmit_timestamp - packet.receive_timestamp
    let delay := max system_precision (delta1 - delta2)
    let dispersion := packet_precision + system_precision + multiply_by_phi delta1
    some { offset := offset, delay := delay, dispersion := dispersion,
           time := local_clock_time }

/-- `LastMeasurements::shift_and_insert` from `filter.rs`: walk the register
left to right swapping the travelling `current` value into each slot; a slot
that is not a dummy first receives the dispersion correction.  The final
(oldest) tuple falls off the end. -/
def shift_and_insert (current : FilterTuple) (dispersion_correction : NtpDuration) :
    List FilterTuple → List FilterTuple
  | [] => []
  | t :: rest =>
    let corrected :=
      if t.is_dummy then t
      else { t with dispersion := t.dispersion + dispersion_correction }
    current :: shift_and_insert corrected dispersion_correction rest

/-- Stable insertion step for `sort_by_delay`: the new element goes after
every element whose delay is less than or equal to its own. -/
def insert_by_delay (x : FilterTuple) : List FilterTuple → List FilterTuple
  | [] => [x]
  | y :: ys => if y.delay ≤ x.delay then y :: insert_by_delay x ys else x :: y :: ys

/-- `TemporaryList::from_clock_filter_contents` from `filter.rs` sorts a copy
of the register by increasing delay with Rust's stable `sort_by` (the
comparator `partial_cmp` never sees a NaN here since delays are fixed-point).
A stable insertion sort computes the same list, since the output of a stable
sort is uniquely determined by the key. -/
def sort_by_delay (l : List FilterTuple) : List FilterTuple :=
  l.foldl (fun acc x => insert_by_delay x acc) []

/-- `TemporaryList::valid_tuples` from `filter.rs`: the prefix obtained by
discarding the trailing run of dummies. -/
def valid_tuples (l : List FilterTuple) : List FilterTuple :=
  l.take (l.length - (l.reverse.takeWhile FilterTuple.is_dummy).length)

/-- `TemporaryList::dispersion` from `filter.rs`: fold of
`tuple[i].dispersion / 2^(i+1)` over the register. -/
def register_dispersion (l : List FilterTuple) : NtpDuration :=
  (l.enum.map (fun it => Int.tdiv it.2.dispersion (2 ^ (it.1 + 1)))).foldl (· + ·) 0

/-- `PeerStatistics` from `filter.rs`.  The `jitter` field is an `f64` count
of seconds in the source; floating point is outside the embedding, so the
field here stores the `NtpDuration` that `NtpDuration::from_seconds(jitter)`
would produce, which is all any integer computation of the core reads. -/
structure PeerStatistics where
  offset : NtpDuration
  delay : NtpDuration
  dispersion : NtpDuration
  jitter : Int
deriving DecidableEq

/-- `Peer` from `filter.rs`.  The reach register is a `u8` modelled as a
natural number below 256. -/
structure Peer where
  statistics : PeerStatistics
  last_measurements : List FilterTuple
  last_packet : NtpHeader
  time : NtpTimestamp
  peer_id : Nat
  our_id : Nat
  host_poll : NtpDuration
  burst : Nat
  out_date : NtpTimestamp
  next_date : NtpTimestamp
  reach : Nat
deriving DecidableEq

/-- `Decision` from `filter.rs`. -/
inductive Decision
  | Ignore
  | Process
deriving DecidableEq

/-- The jitter computation `TemporaryList::jitter` is `f64` arithmetic
(root mean square and a square root); floating point is outside the
embedding, so `clock_filter` below is parametrised by the function that maps
the valid tuples and the smallest-delay tuple to the committed jitter value.
Every claim proved about `clock_filter` holds for an arbitrary such
function. -/
abbrev JitterFn := List FilterTuple → FilterTuple → Int

/-- `Peer::clock_filter` from `filter.rs`: shift the new tuple into the
register, sort a copy by delay, apply the prime directive, and otherwise
commit the statistics of the smallest-delay sample. -/
def clock_filter (jitter_fn : JitterFn) (p : Peer) (new_tuple : FilterTuple)
    (system_leap_indicator : NtpLeapIndicator) : Decision × Peer :=
  let dispersion_correction := multiply_by_phi (new_tuple.time - p.time)
  let register := shift_and_insert new_tuple dispersion_correction p.last_measurements
  let p1 := { p with last_measurements := register }
  let temporary_list := sort_by_delay register
  let smallest_delay := temporary_list.headD FilterTuple.DUMMY
  if smallest_delay.time - p1.time ≤ 0 ∧ system_leap_indicator.is_synchronized = true then
    (Decision.Ignore, p1)
  else
    let statistics : PeerStatistics :=
      { offset := smallest_delay.offset
        delay := smallest_delay.delay
        dispersion := register_dispersion temporary_list
        jitter := jitter_fn (valid_tuples temporary_list) smallest_delay }
    (Decision.Process, { p1 with statistics := statistics, time := smallest_delay.time })

/-- `Peer::root_distance` from `filter.rs`. -/
def root_distance (p : Peer) (local_clock_time : NtpTimestamp) : NtpDuration :=
  Int.tdiv (max NtpDuration.MIN_DISPERSION (p.last_packet.root_delay + p.statistics.delay)) 2
    + p.last_packet.root_dispersion
    + p.statistics.dispersion
    + multiply_by_phi (local_clock_time - p.time)
    + p.statistics.jitter

/-- `Peer::accept_synchronization` from `filter.rs`. -/
def accept_synchronization (p : Peer) (local_clock_time : NtpTimestamp)
    (system_poll : NtpDuration) : Bool :=
  if ¬ p.last_packet.leap.is_synchronized = true ∨ MAX_STRATUM ≤ p.last_packet.stratum then
    false
  else if MAX_DISTANCE + multiply_by_phi system_poll < root_distance p local_clock_time then
    false
  else if p.last_packet.stratum ≠ 1 ∧ p.last_packet.reference_id = p.our_id then
    false
  else
    true

/-- `clamp_ntp_duration` from `filter.rs`: `value.min(upper).max(lower)`. -/
def clamp_ntp_duration (lower_bound value upper_bound : NtpDuration) : NtpDuration :=
  max (min value upper_bound) lower_bound

/-- `Peer::poll_update` from `filter.rs`.  Note the early return in the burst
branch when the deadline has already passed, which skips the final floor. -/
def poll_update (p : Peer) (local_clock_time : NtpTimestamp)
    (poll_interval : NtpDuration) : Peer :=
  let p := { p with
    host_poll := clamp_ntp_duration (NtpDuration.from_exponent 4) poll_interval
      (NtpDuration.from_exponent 17) }
  if 0 < p.burst then
    if p.next_date < local_clock_time then
      p
    else
      let p := { p with next_date := p.next_date + BURST_INTERVAL }
      if p.next_date < local_clock_time then
        { p with next_date := local_clock_time + NtpDuration.ONE }
      else p
  else
    let offset := clamp_ntp_duration (NtpDuration.from_exponent 4) p.host_poll
      (NtpDuration.from_exponent p.last_packet.poll)
    let p := { p with next_date := p.out_date + offset }
    if p.next_date < local_clock_time then
      { p with next_date := local_clock_time + NtpDuration.ONE }
    else p

/-- The stratum rewrite at the top of `Peer::update_with_packet`: stratum 0
(unspecified) is mapped to `MAX_STRATUM`. -/
def rewrite_stratum (packet : NtpHeader) : NtpHeader :=
  if packet.stratum = 0 then { packet with stratum := MAX_STRATUM } else packet

/-- Outcome of `Peer::update_with_packet`: `reject` models returning `None`,
`accept` models returning `Some(tuple)`, and `unimplemented` models reaching
the broadcast `todo!()` panic inside `FilterTuple::from_packet`. -/
inductive UpdateOutcome
  | reject
  | accept (tuple : FilterTuple)
  | unimplemented
deriving DecidableEq

/-- `Peer::update_with_packet` from `filter.rs`, threading the mutated peer
state explicitly. -/
def update_with_packet (p : Peer) (local_clock_time : NtpTimestamp)
    (system_precision : NtpDuration) (packet : NtpHeader)
    (destination_timestamp : NtpTimestamp) : UpdateOutcome × Peer :=
  let packet := rewrite_stratum packet
  let p := { p with last_packet := packet }
  if ¬ packet.leap.is_synchronized = true ∨ MAX_STRATUM ≤ packet.stratum then
    (UpdateOutcome.reject, p)
  else if NtpDuration.MAX_DISPERSION ≤ Int.tdiv packet.root_delay 2 + packet.root_dispersion
      ∨ packet.transmit_timestamp < packet.reference_timestamp then
    (UpdateOutcome.reject, p)
  else
    let p := poll_update p local_clock_time p.host_poll
    let p := { p with reach := p.reach ||| 1 }
    match FilterTuple.from_packet packet system_precision destination_timestamp
        local_clock_time with
    | some tuple => (UpdateOutcome.accept tuple, p)
    | none => (UpdateOutcome.unimplemented, p)

/-- `Reach::received_packet` from `filter.rs`: set the low bit. -/
def Reach.received_packet (r : Nat) : Nat := r ||| 1

/-- `Reach::poll` from `filter.rs`: shift the `u8` register left by one,
discarding the high bit. -/
def Reach.poll (r : Nat) : Nat := (r <<< 1) % 256

/-- `Reach::is_reachable` from `filter.rs`: the register is nonzero. -/
def Reach.is_reachable (r : Nat) : Bool := decide (r ≠ 0)

/-- An event applied to the reach register: `send` is `Reach::poll`,
`receive` is `Reach::received_packet`. -/
inductive ReachOp
  | send
  | receive
deriving DecidableEq

/-- One reach-register event. -/
def reach_step (r : Nat) : ReachOp → Nat
  | .send => Reach.poll r
  | .receive => Reach.received_packet r

/-- Run a sequence of reach-register events starting from zero. -/
def reach_run (ops : List ReachOp) : Nat := ops.foldl reach_step 0

/-- `EndpointType` from `filter.rs`. -/
inductive EndpointType
  | Upper
  | Middle
  | Lower
deriving DecidableEq

/-- The `repr(i8)` tag values of `EndpointType`. -/
def EndpointType.value : EndpointType → Int
  | .Upper => 1
  | .Middle => 0
  | .Lower => -1

/-- `CandidateTuple` from `filter.rs` (the peer is held by value; the source
borrows it). -/
structure CandidateTuple where
  peer : Peer
  endpoint_type : EndpointType
  edge : NtpDuration
deriving DecidableEq

/-- `SurvivorTuple` from `filter.rs`. -/
structure SurvivorTuple where
  p : Peer
  metric : NtpDuration
deriving DecidableEq

/-- The lower-endpoint scan of `find_interval`: walk the chime list from
lowest to highest, subtracting each endpoint tag from `chime`; stop with the
current edge as soon as `chime >= n - allow`, counting the middles passed
before the break. -/
def lower_sweep (n allow : Nat) : List CandidateTuple → Int → Nat →
    Option NtpDuration × Nat
  | [], _, found => (none, found)
  | t :: rest, chime, found =>
    let chime := chime - t.endpoint_type.value
    if ((n - allow : Nat) : Int) ≤ chime then (some t.edge, found)
    else
      lower_sweep n allow rest chime
        (if t.endpoint_type = EndpointType.Middle then found + 1 else found)

/-- The upper-endpoint scan of `find_interval`: the caller passes the chime
list reversed; each endpoint tag is added to `chime`. -/
def upper_sweep (n allow : Nat) : List CandidateTuple → Int → Nat →
    Option NtpDuration × Nat
  | [], _, found => (none, found)
  | t :: rest, chime, found =>
    let chime := chime + t.endpoint_type.value
    if ((n - allow : Nat) : Int) ≤ chime then (some t.edge, found)
    else
      upper_sweep n allow rest chime
        (if t.endpoint_type = EndpointType.Middle then found + 1 else found)

/-- The `allow` loop of `find_interval`, with the `low`/`high` options
threaded across iterations exactly as the mutable locals of the source are.
The source iterates `allow` while `2 * allow < n`; the fuel argument merely
bounds the recursion and is chosen by `find_interval` so that it never runs
out before that guard fails. -/
def find_interval_loop (chime_list : List CandidateTuple) (n : Nat) :
    Nat → Nat → Option NtpDuration → Option NtpDuration →
    Option (NtpDuration × NtpDuration)
  | 0, _, _, _ => none
  | fuel + 1, allow, low, high =>
    if 2 * allow < n then
      let lr := lower_sweep n allow chime_list 0 0
      let low := match lr.1 with | some e => some e | none => low
      let ur := upper_sweep n allow chime_list.reverse 0 lr.2
      let high := match ur.1 with | some e => some e | none => high
      if allow < ur.2 then
        find_interval_loop chime_list n fuel (allow + 1) low high
      else
        match low, high with
        | some l, some h => some (l, h)
        | _, _ => find_interval_loop chime_list n fuel (allow + 1) low high
    else none

/-- `find_interval` from `filter.rs`: `n` is the number of peers
(`chime_list.len() / 3`). -/
def find_interval (chime_list : List CandidateTuple) :
    Option (NtpDuration × NtpDuration) :=
  let n := chime_list.length / 3
  find_interval_loop chime_list n (n + 1) 0 none none

/-- `filter_survivor` from `filter.rs`. -/
def filter_survivor (candidate : CandidateTuple) (local_clock_time : NtpTimestamp)
    (low high : NtpDuration) : Option SurvivorTuple :=
  if candidate.edge < low ∨ high < candidate.edge
      ∨ candidate.endpoint_type ≠ EndpointType.Middle then
    none
  else
    some { p := candidate.peer
           metric := MAX_DISTANCE * (candidate.peer.last_packet.stratum : Int)
             + root_distance candidate.peer local_clock_time }

/-- `construct_survivors` from `filter.rs`. -/
def construct_survivors (chime_list : List CandidateTuple)
    (local_clock_time : NtpTimestamp) : List SurvivorTuple :=
  match find_interval chime_list with
  | some lh =>
    chime_list.filterMap (fun candidate => filter_survivor candidate local_clock_time lh.1 lh.2)
  | none => []

/-- The default header used by the tests of `filter.rs`
(`NtpHeader::default`): modelled from the spec as the all-zero header with a
NoWarning leap indicator and client mode. -/
def default_header : NtpHeader :=
  { leap := .NoWarning
    mode := .Client
    stratum := 0
    poll := 0
    precision := 0
    root_delay := 0
    root_dispersion := 0
    reference_id := 0
    reference_timestamp := 0
    origin_timestamp := 0
    receive_timestamp := 0
    transmit_timestamp := 0 }

/-- `default_peer` from the tests of `filter.rs`: default statistics, a
register of eight dummies, and zero for every scalar field. -/
def default_peer : Peer :=
  { statistics := { offset := 0, delay := 0, dispersion := 0, jitter := 0 }
    last_measurements := List.replicate 8 FilterTuple.DUMMY
    last_packet := default_header
    time := 0
    peer_id := 0
    our_id := 0
    host_poll := 0
    burst := 0
    out_date := 0
    next_date := 0
    reach := 0 }

/-! ## Helper lemmas about the embedded operations -/

/-- Shifting preserves the register length (each slot is rewritten in place,
the travelling value replaces the slot content). -/
theorem shift_and_insert_length (dispersion_correction : NtpDuration) :
    ∀ (current : FilterTuple) (l : List FilterTuple),
      (shift_and_insert current dispersion_correction l).length = l.length := by
  intro current l
  induction l generalizing current with
  | nil => rfl
  | cons t rest ih => simp [shift_and_insert, ih]

/-- Stable insertion produces a permutation of consing. -/
theorem insert_by_delay_perm (x : FilterTuple) :
    ∀ l : List FilterTuple, (insert_by_delay x l).Perm (x :: l) := by
  intro l
  induction l with
  | nil => simp [insert_by_delay]
  | cons y ys ih =>
    by_cases h : y.delay ≤ x.delay
    · simp only [insert_by_delay, if_pos h]
      exact ((ih.cons y).trans (List.Perm.swap x y ys))
    · simp [insert_by_delay, if_neg h]

/-- The insertion sort permutes its input. -/
theorem sort_by_delay_perm (l : List FilterTuple) : (sort_by_delay l).Perm l := by
  suffices h : ∀ (l acc : List FilterTuple),
      (l.foldl (fun a x => insert_by_delay x a) acc).Perm (acc ++ l) by
    simpa using h l []
  intro l
  induction l with
  | nil => intro acc; simp
  | cons x xs ih =>
    intro acc
    have h1 := ih (insert_by_delay x acc)
    have h2 : (insert_by_delay x acc ++ xs).Perm (acc ++ x :: xs) :=
      ((insert_by_delay_perm x acc).append_right xs).trans List.perm_middle.symm
    simpa [List.foldl_cons] using h1.trans h2

theorem sort_by_delay_length (l : List FilterTuple) :
    (sort_by_delay l).length = l.length :=
  (sort_by_delay_perm l).length_eq

theorem mem_sort_by_delay {x : FilterTuple} {l : List FilterTuple} (hx : x ∈ l) :
    x ∈ sort_by_delay l :=
  ((sort_by_delay_perm l).mem_iff).mpr hx

/-- The delay ordering used by the sort. -/
def delay_le (a b : FilterTuple) : Prop := a.delay ≤ b.delay

theorem insert_by_delay_sorted {l : List FilterTuple} (x : FilterTuple)
    (h : l.Sorted delay_le) : (insert_by_delay x l).Sorted delay_le := by
  induction l with
  | nil => simp [insert_by_delay, delay_le]
  | cons y ys ih =>
    rw [List.sorted_cons] at h
    obtain ⟨hy, hys⟩ := h
    by_cases hle : y.delay ≤ x.delay
    · simp only [insert_by_delay, if_pos hle, List.sorted_cons]
      refine ⟨?_, ih hys⟩
      intro z hz
      rcases List.mem_cons.mp (((insert_by_delay_perm x ys).mem_iff).mp hz) with rfl | hzys
      · exact hle
      · exact hy z hzys
    · simp only [insert_by_delay, if_neg hle, List.sorted_cons]
      refine ⟨?_, hy, hys⟩
      intro z hz
      rcases List.mem_cons.mp hz with rfl | hzys
      · exact le_of_lt (lt_of_not_le hle)
      · exact le_trans (le_of_lt (lt_of_not_le hle)) (hy z hzys)

theorem sort_by_delay_sorted (l : List FilterTuple) :
    (sort_by_delay l).Sorted delay_le := by
  suffices h : ∀ (l acc : List FilterTuple), acc.Sorted delay_le →
      (l.foldl (fun a x => insert_by_delay x a) acc).Sorted delay_le by
    exact h l [] (by simp)
  intro l
  induction l with
  | nil => intro acc hacc; simpa using hacc
  | cons x xs ih =>
    intro acc hacc
    exact ih (insert_by_delay x acc) (insert_by_delay_sorted x hacc)

/-- On a register of exactly eight slots the enumerate-and-fold dispersion of
the source is the eight-term weighted sum of the specification. -/
theorem register_dispersion_eq_sum (l : List FilterTuple) (hl : l.length = 8) :
    register_dispersion l =
      ∑ i ∈ Finset.range 8,
        Int.tdiv ((l.getD i FilterTuple.DUMMY).dispersion) (2 ^ (i + 1)) := by
  match l, hl with
  | [t0, t1, t2, t3, t4, t5, t6, t7], _ =>
    simp [register_dispersion, Finset.sum_range_succ, List.enum, List.enumFrom]

/-- The register after `clock_filter` has inserted the new tuple. -/
def cf_register (p : Peer) (new_tuple : FilterTuple) : List FilterTuple :=
  shift_and_insert new_tuple (multiply_by_phi (new_tuple.time - p.time)) p.last_measurements

/-- The sorted copy of the post-insertion register built by `clock_filter`. -/
def cf_sorted (p : Peer) (new_tuple : FilterTuple) : List FilterTuple :=
  sort_by_delay (cf_register p new_tuple)

/-- The smallest-delay sample `clock_filter` selects. -/
def cf_best (p : Peer) (new_tuple : FilterTuple) : FilterTuple :=
  (cf_sorted p new_tuple).headD FilterTuple.DUMMY

/-- Closed form of `clock_filter` in terms of the pipeline pieces. -/
theorem clock_filter_eq (jitter_fn : JitterFn) (p : Peer) (new_tuple : FilterTuple)
    (leap : NtpLeapIndicator) :
    clock_filter jitter_fn p new_tuple leap =
      if (cf_best p new_tuple).time ≤ p.time ∧ leap.is_synchronized = true then
        (Decision.Ignore, { p with last_measurements := cf_register p new_tuple })
      else
        (Decision.Process,
          { p with
            last_measurements := cf_register p new_tuple
            statistics :=
              { offset := (cf_best p new_tuple).offset
                delay := (cf_best p new_tuple).delay
                dispersion := register_dispersion (cf_sorted p new_tuple)
                jitter := jitter_fn (valid_tuples (cf_sorted p new_tuple)) (cf_best p new_tuple) }
            time := (cf_best p new_tuple).time }) := by
  simp only [clock_filter, cf_best, cf_sorted, cf_register, sub_nonpos]

/-! ## Claim C3 -/

/-- C3: for every non-broadcast parsed header, the sample built by
`FilterTuple::from_packet` has offset `((T2 - T1) + (T4 - T3)) / 2`, delay
`max(rho, (T4 - T1) - (T3 - T2))` (hence never below the system precision),
dispersion `2^p + rho + phi * (T4 - T1)`, and time equal to the local clock
time. -/
theorem from_packet_c3 (packet : NtpHeader) (system_precision : NtpDuration)
    (destination_timestamp local_clock_time : NtpTimestamp)
    (hmode : packet.mode ≠ NtpAssociationMode.Broadcast) :
    FilterTuple.from_packet packet system_precision destination_timestamp local_clock_time =
      some
        { offset := Int.tdiv ((packet.receive_timestamp - packet.origin_timestamp)
              + (destination_timestamp - packet.transmit_timestamp)) 2
          delay := max system_precision ((destination_timestamp - packet.origin_timestamp)
              - (packet.transmit_timestamp - packet.receive_timestamp))
          dispersion := NtpDuration.from_exponent packet.precision + system_precision
              + Int.tdiv ((destination_timestamp - packet.origin_timestamp) * 15) 1000000
          time := local_clock_time }
    ∧ system_precision ≤ max system_precision ((destination_timestamp - packet.origin_timestamp)
        - (packet.transmit_timestamp - packet.receive_timestamp)) := by
  refine ⟨?_, le_max_left _ _⟩
  cases hp : packet.mode
  case Broadcast => exact absurd hp hmode
  all_goals simp [FilterTuple.from_packet, hp, multiply_by_phi]

/-- Witness for C3: scenario S1 of the spec, T1 = 0 s, T2 = 10 s, T3 = 20 s,
T4 = 30 s, precision exponent 0, system precision 0. -/
theorem from_packet_c3_witness :
    FilterTuple.from_packet
        { default_header with
            mode := .Client
            origin_timestamp := 0
            receive_timestamp := 10 * 2 ^ 32
            transmit_timestamp := 20 * 2 ^ 32 }
        0 (30 * 2 ^ 32) 0 =
      some
        { offset := Int.tdiv ((10 * 2 ^ 32 - 0) + (30 * 2 ^ 32 - 20 * 2 ^ 32)) 2
          delay := max 0 ((30 * 2 ^ 32 - 0) - (20 * 2 ^ 32 - 10 * 2 ^ 32))
          dispersion := NtpDuration.from_exponent 0 + 0
              + Int.tdiv ((30 * 2 ^ 32 - 0) * 15) 1000000
          time := 0 }
    ∧ (0 : NtpDuration) ≤ max 0 ((30 * 2 ^ 32 - 0) - (20 * 2 ^ 32 - 10 * 2 ^ 32)) :=
  from_packet_c3 _ 0 (30 * 2 ^ 32) 0 (by decide)

/-! ## Claim C5 -/

/-- C5: `accept_synchronization` returns true iff the last packet is
synchronized with stratum below 16, the root distance is within
`MAX_DISTANCE + phi * system_poll`, and the loop check passes; and the
result never depends on the reach register. -/
theorem accept_synchronization_c5 (p : Peer) (local_clock_time : NtpTimestamp)
    (system_poll : NtpDuration) :
    (accept_synchronization p local_clock_time system_poll = true ↔
      (p.last_packet.leap.is_synchronized = true ∧ p.last_packet.stratum < 16)
      ∧ Int.tdiv (max NtpDuration.MIN_DISPERSION
            (p.last_packet.root_delay + p.statistics.delay)) 2
          + p.last_packet.root_dispersion + p.statistics.dispersion
          + multiply_by_phi (local_clock_time - p.time) + p.statistics.jitter
          ≤ MAX_DISTANCE + multiply_by_phi system_poll
      ∧ ¬ (p.last_packet.stratum ≠ 1 ∧ p.last_packet.reference_id = p.our_id))
    ∧ ∀ r : Nat,
        accept_synchronization { p with reach := r } local_clock_time system_poll
          = accept_synchronization p local_clock_time system_poll := by
  constructor
  · unfold accept_synchronization root_distance MAX_STRATUM
    split_ifs with h1 h2 h3
    · simp only [false_iff]
      rintro ⟨⟨hs, hst⟩, -, -⟩
      rcases h1 with h | h
      · exact h hs
      · omega
    · simp only [false_iff]
      rintro ⟨-, hd, -⟩
      exact absurd hd (not_le.mpr h2)
    · simp only [false_iff]
      rintro ⟨-, -, hl⟩
      exact hl h3
    · simp only [true_iff]
      simp only [not_or, not_le, not_not] at h1
      exact ⟨h1, not_lt.mp h2, h3⟩
  · intro r
    rfl

/-! ## Claim C1 -/

/-- C1: after `clock_filter` inserts the tuple and sorts a copy of the
register by ascending delay, let `best` be the smallest-delay sample (the
head of the sorted copy, which has minimal delay).  If `best.time` is at
most `peer.time` and the system is synchronized, the decision is Ignore;
otherwise the statistics are set to best's offset and delay, the weighted
dispersion sum, the peer time becomes `best.time`, and the decision is
Process. -/
theorem clock_filter_c1 (jitter_fn : JitterFn) (p : Peer) (new_tuple : FilterTuple)
    (leap : NtpLeapIndicator) (h8 : p.last_measurements.length = 8) :
    (∀ x ∈ cf_sorted p new_tuple, (cf_best p new_tuple).delay ≤ x.delay)
    ∧ ((cf_best p new_tuple).time ≤ p.time ∧ leap.is_synchronized = true →
        (clock_filter jitter_fn p new_tuple leap).1 = Decision.Ignore)
    ∧ (¬ ((cf_best p new_tuple).time ≤ p.time ∧ leap.is_synchronized = true) →
        (clock_filter jitter_fn p new_tuple leap).1 = Decision.Process
        ∧ (clock_filter jitter_fn p new_tuple leap).2.statistics.offset
            = (cf_best p new_tuple).offset
        ∧ (clock_filter jitter_fn p new_tuple leap).2.statistics.delay
            = (cf_best p new_tuple).delay
        ∧ (clock_filter jitter_fn p new_tuple leap).2.statistics.dispersion
            = ∑ i ∈ Finset.range 8,
                Int.tdiv (((cf_sorted p new_tuple).getD i FilterTuple.DUMMY).dispersion)
                  (2 ^ (i + 1))
        ∧ (clock_filter jitter_fn p new_tuple leap).2.time = (cf_best p new_tuple).time) := by
  have hlen : (cf_sorted p new_tuple).length = 8 := by
    unfold cf_sorted cf_register
    rw [sort_by_delay_length, shift_and_insert_length, h8]
  refine ⟨?_, ?_, ?_⟩
  · intro x hx
    have hs := sort_by_delay_sorted (cf_register p new_tuple)
    unfold cf_best
    unfold cf_sorted at hx hlen ⊢
    rcases hl : sort_by_delay (cf_register p new_tuple) with _ | ⟨a, rest⟩
    · rw [hl] at hlen; simp at hlen
    · rw [hl] at hx hs
      rw [List.sorted_cons] at hs
      rcases List.mem_cons.mp hx with rfl | hxr
      · exact le_refl _
      · exact hs.1 x hxr
  · intro hc
    rw [clock_filter_eq, if_pos hc]
  · intro hc
    rw [clock_filter_eq, if_neg hc]
    exact ⟨rfl, rfl, rfl, register_dispersion_eq_sum _ hlen, rfl⟩

/-- Witness for C1: the `clock_filter_new` test scenario, a fresh sample of
offset 12 s, delay 14 s at time 1 s against the default peer while the
system is synchronized, which takes the Process path. -/
theorem clock_filter_c1_witness :
    (clock_filter (fun _ _ => 0) default_peer
        { offset := 12 * 2 ^ 32, delay := 14 * 2 ^ 32, dispersion := 0, time := 2 ^ 32 }
        NtpLeapIndicator.NoWarning).1 = Decision.Process
    ∧ (clock_filter (fun _ _ => 0) default_peer
        { offset := 12 * 2 ^ 32, delay := 14 * 2 ^ 32, dispersion := 0, time := 2 ^ 32 }
        NtpLeapIndicator.NoWarning).2.statistics.offset
        = (cf_best default_peer
            { offset := 12 * 2 ^ 32, delay := 14 * 2 ^ 32, dispersion := 0, time := 2 ^ 32 }).offset
    ∧ (clock_filter (fun _ _ => 0) default_peer
        { offset := 12 * 2 ^ 32, delay := 14 * 2 ^ 32, dispersion := 0, time := 2 ^ 32 }
        NtpLeapIndicator.NoWarning).2.statistics.delay
        = (cf_best default_peer
            { offset := 12 * 2 ^ 32, delay := 14 * 2 ^ 32, dispersion := 0, time := 2 ^ 32 }).delay
    ∧ (clock_filter (fun _ _ => 0) default_peer
        { offset := 12 * 2 ^ 32, delay := 14 * 2 ^ 32, dispersion := 0, time := 2 ^ 32 }
        NtpLeapIndicator.NoWarning).2.statistics.dispersion
        = ∑ i ∈ Finset.range 8,
            Int.tdiv (((cf_sorted default_peer
                { offset := 12 * 2 ^ 32, delay := 14 * 2 ^ 32, dispersion := 0,
                  time := 2 ^ 32 }).getD i FilterTuple.DUMMY).dispersion) (2 ^ (i + 1))
    ∧ (clock_filter (fun _ _ => 0) default_peer
        { offset := 12 * 2 ^ 32, delay := 14 * 2 ^ 32, dispersion := 0, time := 2 ^ 32 }
        NtpLeapIndicator.NoWarning).2.time
        = (cf_best default_peer
            { offset := 12 * 2 ^ 32, delay := 14 * 2 ^ 32, dispersion := 0, time := 2 ^ 32 }).time :=
  (clock_filter_c1 (fun _ _ => 0) default_peer
      { offset := 12 * 2 ^ 32, delay := 14 * 2 ^ 32, dispersion := 0, time := 2 ^ 32 }
      NtpLeapIndicator.NoWarning (by decide)).2.2 (by decide)

/-! ## Claim C2 -/

/-- Counterexample to C2: on the Ignore (prime-directive) path the
measurement register is NOT left unchanged — `shift_and_insert` has already
run.  A zero sample against the default peer with a synchronized system is
ignored, yet the register differs from the all-dummy register it held
before the call. -/
theorem clock_filter_c2_counterexample :
    (clock_filter (fun _ _ => 0) default_peer
        { offset := 0, delay := 0, dispersion := 0, time := 0 }
        NtpLeapIndicator.NoWarning).1 = Decision.Ignore
    ∧ ¬ (clock_filter (fun _ _ => 0) default_peer
        { offset := 0, delay := 0, dispersion := 0, time := 0 }
        NtpLeapIndicator.NoWarning).2.last_measurements
          = default_peer.last_measurements := by
  exact ⟨by decide, by decide⟩

/-- C2 as amended: when `clock_filter` returns Ignore, the statistics, the
peer time and every other field are unchanged, but the measurement register
has been updated by `shift_and_insert` (dispersion corrections applied to
the non-dummy slots, the new tuple inserted at slot 0, the oldest slot
dropped). -/
theorem clock_filter_c2_amended (jitter_fn : JitterFn) (p : Peer)
    (new_tuple : FilterTuple) (leap : NtpLeapIndicator)
    (h : (clock_filter jitter_fn p new_tuple leap).1 = Decision.Ignore) :
    (clock_filter jitter_fn p new_tuple leap).2 =
      { p with
        last_measurements := shift_and_insert new_tuple
          (multiply_by_phi (new_tuple.time - p.time)) p.last_measurements } := by
  rw [clock_filter_eq] at h ⊢
  by_cases hc : (cf_best p new_tuple).time ≤ p.time ∧ leap.is_synchronized = true
  · rw [if_pos hc]; rfl
  · rw [if_neg hc] at h
    exact absurd h (by simp)

/-- Witness for C2 as amended, at the counterexample's input. -/
theorem clock_filter_c2_amended_witness :
    (clock_filter (fun _ _ => 0) default_peer
        { offset := 0, delay := 0, dispersion := 0, time := 0 }
        NtpLeapIndicator.NoWarning).2 =
      { default_peer with
        last_measurements := shift_and_insert
          { offset := 0, delay := 0, dispersion := 0, time := 0 }
          (multiply_by_phi ((0 : Int) - default_peer.time))
          default_peer.last_measurements } :=
  clock_filter_c2_amended (fun _ _ => 0) default_peer
    { offset := 0, delay := 0, dispersion := 0, time := 0 }
    NtpLeapIndicator.NoWarning (by decide)

/-! ## Claim C10 -/

/-- A list whose takeWhile-prefix is everything would have to satisfy the
predicate everywhere; an element failing it caps the prefix length. -/
theorem takeWhile_length_lt {α : Type} (q : α → Bool) :
    ∀ (l : List α) (x : α), x ∈ l → q x = false → (l.takeWhile q).length < l.length := by
  intro l
  induction l with
  | nil => intro x hx; exact absurd hx (List.not_mem_nil x)
  | cons a rest ih =>
    intro x hx hqx
    by_cases hqa : q a = true
    · rw [List.takeWhile_cons_of_pos hqa]
      rcases List.mem_cons.mp hx with rfl | hxr
      · rw [hqa] at hqx; exact absurd hqx (by simp)
      · simpa using ih x hxr hqx
    · rw [List.takeWhile_cons_of_neg (by simpa using hqa)]
      simp

/-- A list containing a non-dummy tuple has a non-empty valid prefix. -/
theorem valid_tuples_length_pos {l : List FilterTuple} {x : FilterTuple}
    (hx : x ∈ l) (hnd : x.is_dummy = false) : 1 ≤ (valid_tuples l).length := by
  have hxr : x ∈ l.reverse := List.mem_reverse.mpr hx
  have htw := takeWhile_length_lt FilterTuple.is_dummy l.reverse x hxr hnd
  rw [List.length_reverse] at htw
  unfold valid_tuples
  rw [List.length_take]
  omega

/-- Counterexample to C10: with the dummy sentinel as input tuple, the
default peer's all-dummy register and an unsynchronized system leap
indicator, `clock_filter` takes the Process path, evaluating the jitter on
an EMPTY valid-tuple list — so the divisor `valid_tuples.len() - 1`
underflows (the list is empty exactly when jitter is evaluated). -/
theorem clock_filter_c10_counterexample :
    (clock_filter (fun _ _ => 0) default_peer FilterTuple.DUMMY
        NtpLeapIndicator.Unknown).1 = Decision.Process
    ∧ valid_tuples (cf_sorted default_peer FilterTuple.DUMMY) = [] := by
  exact ⟨by decide, by decide⟩

/-- C10 as amended: for every input tuple other than the dummy sentinel
(and an 8-slot register, as maintained by the peer), the valid-tuple list is
non-empty whenever the jitter is evaluated: the Process branch applies the
jitter function exactly to `valid_tuples (cf_sorted p new_tuple)`, which
contains at least one tuple. -/
theorem clock_filter_c10_amended (jitter_fn : JitterFn) (p : Peer)
    (new_tuple : FilterTuple) (leap : NtpLeapIndicator)
    (h8 : p.last_measurements.length = 8)
    (hnd : new_tuple ≠ FilterTuple.DUMMY) :
    1 ≤ (valid_tuples (cf_sorted p new_tuple)).length
    ∧ ((clock_filter jitter_fn p new_tuple leap).1 = Decision.Process →
        (clock_filter jitter_fn p new_tuple leap).2.statistics.jitter
          = jitter_fn (valid_tuples (cf_sorted p new_tuple)) (cf_best p new_tuple)) := by
  constructor
  · have hmem : new_tuple ∈ cf_register p new_tuple := by
      unfold cf_register
      rcases hl : p.last_measurements with _ | ⟨t, rest⟩
      · rw [hl] at h8; simp at h8
      · simp [shift_and_insert]
    have hmem2 : new_tuple ∈ cf_sorted p new_tuple := mem_sort_by_delay hmem
    exact valid_tuples_length_pos hmem2 (by simp [FilterTuple.is_dummy, hnd])
  · intro h
    rw [clock_filter_eq] at h ⊢
    by_cases hc : (cf_best p new_tuple).time ≤ p.time ∧ leap.is_synchronized = true
    · rw [if_pos hc] at h
      exact absurd h (by simp)
    · rw [if_neg hc]

/-- Witness for C10 as amended: a concrete non-dummy zero sample against the
default peer. -/
theorem clock_filter_c10_amended_witness :
    1 ≤ (valid_tuples (cf_sorted default_peer
        { offset := 0, delay := 0, dispersion := 0, time := 0 })).length
    ∧ ((clock_filter (fun _ _ => 0) default_peer
          { offset := 0, delay := 0, dispersion := 0, time := 0 }
          NtpLeapIndicator.Unknown).1 = Decision.Process →
        (clock_filter (fun _ _ => 0) default_peer
          { offset := 0, delay := 0, dispersion := 0, time := 0 }
          NtpLeapIndicator.Unknown).2.statistics.jitter
          = (fun (_ : List FilterTuple) (_ : FilterTuple) => (0 : Int))
              (valid_tuples (cf_sorted default_peer
                { offset := 0, delay := 0, dispersion := 0, time := 0 }))
              (cf_best default_peer
                { offset := 0, delay := 0, dispersion := 0, time := 0 })) :=
  clock_filter_c10_amended (fun _ _ => 0) default_peer
    { offset := 0, delay := 0, dispersion := 0, time := 0 }
    NtpLeapIndicator.Unknown (by decide) (by decide)

/-! ## Claim C4 -/

/-- C4: `update_with_packet` returns no sample exactly when, after the
stratum-0-to-16 rewrite, the header is unsynchronized, its stratum is at
least 16, its packet dispersion reaches `MAX_DISPERSION`, or its reference
timestamp exceeds its transmit timestamp; and on every rejection the only
peer field modified is the last-packet snapshot. -/
theorem update_with_packet_c4 (p : Peer) (local_clock_time : NtpTimestamp)
    (system_precision : NtpDuration) (packet : NtpHeader)
    (destination_timestamp : NtpTimestamp) :
    ((update_with_packet p local_clock_time system_precision packet
          destination_timestamp).1 = UpdateOutcome.reject ↔
      ¬ (rewrite_stratum packet).leap.is_synchronized = true
      ∨ 16 ≤ (rewrite_stratum packet).stratum
      ∨ NtpDuration.MAX_DISPERSION ≤
          Int.tdiv (rewrite_stratum packet).root_delay 2
            + (rewrite_stratum packet).root_dispersion
      ∨ (rewrite_stratum packet).transmit_timestamp
          < (rewrite_stratum packet).reference_timestamp)
    ∧ ((update_with_packet p local_clock_time system_precision packet
          destination_timestamp).1 = UpdateOutcome.reject →
        (update_with_packet p local_clock_time system_precision packet
          destination_timestamp).2 = { p with last_packet := rewrite_stratum packet }) := by
  unfold update_with_packet MAX_STRATUM
  dsimp only
  split_ifs with h1 h2
  · constructor
    · simp only [true_iff]
      tauto
    · intro _; rfl
  · constructor
    · simp only [true_iff]
      tauto
    · intro _; rfl
  · rcases hfp : FilterTuple.from_packet (rewrite_stratum packet) system_precision
        destination_timestamp local_clock_time with _ | tuple
    · exact ⟨iff_of_false (by simp) (by tauto), fun h => absurd h (by simp)⟩
    · exact ⟨iff_of_false (by simp) (by tauto), fun h => absurd h (by simp)⟩

/-- Witness for C4: scenario S10 of the spec, a packet with leap Unknown
against the default peer; the call rejects and only `last_packet` changes. -/
theorem update_with_packet_c4_witness :
    (update_with_packet default_peer 0 0 { default_header with leap := .Unknown } 0).2
      = { default_peer with
          last_packet := rewrite_stratum { default_header with leap := .Unknown } } :=
  (update_with_packet_c4 default_peer 0 0 { default_header with leap := .Unknown } 0).2
    (by decide)

/-! ## Claim C9 -/

/-- Every branch of `poll_update` writes the same clamped `host_poll`. -/
theorem poll_update_host_poll (p : Peer) (local_clock_time : NtpTimestamp)
    (poll_interval : NtpDuration) :
    (poll_update p local_clock_time poll_interval).host_poll =
      clamp_ntp_duration (NtpDuration.from_exponent 4) poll_interval
        (NtpDuration.from_exponent 17) := by
  unfold poll_update
  dsimp only
  split_ifs <;> rfl

/-- The clamp bounds of `poll_update`. -/
theorem poll_update_host_poll_bounds (p : Peer) (local_clock_time : NtpTimestamp)
    (poll_interval : NtpDuration) :
    NtpDuration.from_exponent 4 ≤ (poll_update p local_clock_time poll_interval).host_poll
    ∧ (poll_update p local_clock_time poll_interval).host_poll
        ≤ NtpDuration.from_exponent 17 := by
  rw [poll_update_host_poll]
  unfold clamp_ntp_duration
  constructor
  · exact le_max_right _ _
  · exact max_le (min_le_right _ _) (by decide)

/-- C9: after `poll_update` the host poll interval lies between 2^4 and 2^17
seconds inclusive; and along every path through `update_with_packet` the
host poll interval is either untouched or within those bounds. -/
theorem poll_update_c9 (p : Peer) (local_clock_time : NtpTimestamp)
    (poll_interval : NtpDuration) :
    (NtpDuration.from_exponent 4 ≤ (poll_update p local_clock_time poll_interval).host_poll
      ∧ (poll_update p local_clock_time poll_interval).host_poll
          ≤ NtpDuration.from_exponent 17)
    ∧ ∀ (system_precision : NtpDuration) (packet : NtpHeader)
        (destination_timestamp : NtpTimestamp),
        (update_with_packet p local_clock_time system_precision packet
            destination_timestamp).2.host_poll = p.host_poll
        ∨ (NtpDuration.from_exponent 4 ≤
              (update_with_packet p local_clock_time system_precision packet
                destination_timestamp).2.host_poll
            ∧ (update_with_packet p local_clock_time system_precision packet
                destination_timestamp).2.host_poll ≤ NtpDuration.from_exponent 17) := by
  refine ⟨poll_update_host_poll_bounds p local_clock_time poll_interval, ?_⟩
  intro system_precision packet destination_timestamp
  unfold update_with_packet
  dsimp only
  split_ifs with h1 h2
  · left; rfl
  · left; rfl
  · rcases hfp : FilterTuple.from_packet (rewrite_stratum packet) system_precision
        destination_timestamp local_clock_time with _ | tuple
    · right
      exact poll_update_host_poll_bounds _ local_clock_time _
    · right
      exact poll_update_host_poll_bounds _ local_clock_time _

/-! ## Claim C6 -/

/-- The survivor filter pass is the filter-then-map of the specification. -/
theorem filterMap_filter_survivor (local_clock_time : NtpTimestamp)
    (low high : NtpDuration) :
    ∀ l : List CandidateTuple,
      l.filterMap (fun c => filter_survivor c local_clock_time low high) =
        (l.filter (fun c => decide (c.endpoint_type = EndpointType.Middle
            ∧ low ≤ c.edge ∧ c.edge ≤ high))).map
          (fun c =>
            { p := c.peer
              metric := MAX_DISTANCE * (c.peer.last_packet.stratum : Int)
                + root_distance c.peer local_clock_time }) := by
  intro l
  induction l with
  | nil => rfl
  | cons c rest ih =>
    rw [List.filterMap_cons, List.filter_cons]
    by_cases h1 : c.edge < low ∨ high < c.edge ∨ c.endpoint_type ≠ EndpointType.Middle
    · have hf : filter_survivor c local_clock_time low high = none := by
        unfold filter_survivor
        rw [if_pos h1]
      have hp : decide (c.endpoint_type = EndpointType.Middle
          ∧ low ≤ c.edge ∧ c.edge ≤ high) = false := by
        simp only [decide_eq_false_iff_not]
        rintro ⟨hm, hl, hh⟩
        rcases h1 with h | h | h
        · exact absurd hl (not_le.mpr h)
        · exact absurd hh (not_le.mpr h)
        · exact h hm
      rw [hf, hp]
      simpa using ih
    · push_neg at h1
      obtain ⟨hl, hh, hm⟩ := h1
      have hf : filter_survivor c local_clock_time low high =
          some { p := c.peer
                 metric := MAX_DISTANCE * (c.peer.last_packet.stratum : Int)
                   + root_distance c.peer local_clock_time } := by
        unfold filter_survivor
        rw [if_neg]
        push_neg
        exact ⟨hl, hh, hm⟩
      have hp : decide (c.endpoint_type = EndpointType.Middle
          ∧ low ≤ c.edge ∧ c.edge ≤ high) = true := by
        simp only [decide_eq_true_eq]
        exact ⟨hm, hl, hh⟩
      rw [hf, hp]
      simpa using ih

/-- C6: if `find_interval` yields nothing the survivor list is empty, and if
it yields `(low, high)` the survivors are exactly the Middle candidates with
edge inside `[low, high]`, each carrying metric
`MAX_DISTANCE * stratum + root_distance`. -/
theorem construct_survivors_c6 (l : List CandidateTuple)
    (local_clock_time : NtpTimestamp) :
    (find_interval l = none → construct_survivors l local_clock_time = [])
    ∧ ∀ low high, find_interval l = some (low, high) →
        construct_survivors l local_clock_time =
          (l.filter (fun c => decide (c.endpoint_type = EndpointType.Middle
              ∧ low ≤ c.edge ∧ c.edge ≤ high))).map
            (fun c =>
              { p := c.peer
                metric := MAX_DISTANCE * (c.peer.last_packet.stratum : Int)
                  + root_distance c.peer local_clock_time }) := by
  constructor
  · intro h
    unfold construct_survivors
    rw [h]
  · intro low high h
    unfold construct_survivors
    rw [h]
    exact filterMap_filter_survivor local_clock_time low high l

/-- A one-peer candidate list for exercising C6 concretely. -/
def single_list : List CandidateTuple :=
  [ { peer := default_peer, endpoint_type := .Lower, edge := -1 }
  , { peer := default_peer, endpoint_type := .Middle, edge := 0 }
  , { peer := default_peer, endpoint_type := .Upper, edge := 1 } ]

/-- Witness for C6: the empty candidate list (no interval, no survivors) and
a single-peer list whose interval is `(-1, 1)`. -/
theorem construct_survivors_c6_witness :
    construct_survivors [] 0 = []
    ∧ construct_survivors single_list 0 =
        (single_list.filter (fun c => decide (c.endpoint_type = EndpointType.Middle
            ∧ -1 ≤ c.edge ∧ c.edge ≤ 1))).map
          (fun c =>
            { p := c.peer
              metric := MAX_DISTANCE * (c.peer.last_packet.stratum : Int)
                + root_distance c.peer 0 }) :=
  ⟨(construct_survivors_c6 [] 0).1 (by decide),
   (construct_survivors_c6 single_list 0).2 (-1) 1 (by decide)⟩

/-! ## Claim C7 -/

/-- The candidate list of the `find_interval_outlier` test: two peers around
the origin and an outlier around +16 (edges are raw fixed-point values, as
`from_fixed_int` produces). -/
def outlier_list : List CandidateTuple :=
  [ { peer := default_peer, endpoint_type := .Lower, edge := -4 }
  , { peer := default_peer, endpoint_type := .Lower, edge := -3 }
  , { peer := default_peer, endpoint_type := .Middle, edge := -1 }
  , { peer := default_peer, endpoint_type := .Middle, edge := 0 }
  , { peer := default_peer, endpoint_type := .Upper, edge := 2 }
  , { peer := default_peer, endpoint_type := .Upper, edge := 3 }
  , { peer := default_peer, endpoint_type := .Lower, edge := 15 }
  , { peer := default_peer, endpoint_type := .Middle, edge := 16 }
  , { peer := default_peer, endpoint_type := .Upper, edge := 17 } ]

/-- C7: on the outlier list `find_interval` returns `(-3, 2)` — the `allow=0`
iteration's lower sweep never reaches its chime threshold (`n - allow` with
`n = 3`), while at `allow = 1` the sweeps stop at `-3` and `2` — and
`construct_survivors` keeps exactly 2 survivors. -/
theorem find_interval_c7 :
    find_interval outlier_list = some (-3, 2)
    ∧ (lower_sweep 3 0 outlier_list 0 0).1 = none
    ∧ (lower_sweep 3 1 outlier_list 0 0).1 = some (-3)
    ∧ (upper_sweep 3 1 outlier_list.reverse 0 0).1 = some 2
    ∧ (construct_survivors outlier_list 0).length = 2 := by
  refine ⟨by decide, by decide, by decide, by decide, by decide⟩

/-! ## Claim C8 -/

/-- Setting the low bit makes the register nonzero modulo any positive power
of two. -/
theorem lor_one_mod_two_pow (r k : Nat) (hk : 1 ≤ k) : (r ||| 1) % 2 ^ k ≠ 0 := by
  intro h0
  have hbit : (r ||| 1).testBit 0 = true := by
    rw [Nat.testBit_or]
    simp [Nat.testBit_zero]
  have h1 : (r ||| 1) % 2 = 1 := by
    rw [Nat.testBit_zero, decide_eq_true_eq] at hbit
    exact hbit
  have hdvd : (2 : Nat) ∣ 2 ^ k := dvd_pow_self 2 (by omega)
  have h2 := Nat.mod_mod_of_dvd (r ||| 1) hdvd
  rw [h0, Nat.zero_mod] at h2
  omega

/-- The reach register always stays below 256. -/
theorem reach_run_lt (ops : List ReachOp) : reach_run ops < 256 := by
  suffices h : ∀ (ops : List ReachOp) (r : Nat), r < 256 → ops.foldl reach_step r < 256 from
    h ops 0 (by norm_num)
  intro ops
  induction ops with
  | nil => intro r hr; exact hr
  | cons a rest ih =>
    intro r hr
    rw [List.foldl_cons]
    apply ih
    cases a with
    | send => exact Nat.mod_lt _ (by norm_num)
    | receive =>
      have h256 : (256 : Nat) = 2 ^ 8 := by norm_num
      rw [h256] at hr ⊢
      exact Nat.or_lt_two_pow hr (by norm_num)

/-- The register modulo `2^m` witnesses exactly the last `m` events: it is
nonzero iff a receive occurs among them, where an initial value `r`
contributes its low bits when fewer than `m` events have happened. -/
theorem reach_foldl_mod (m : Nat) (hm : m ≤ 8) :
    ∀ (ops : List ReachOp) (r : Nat),
      ((ops.foldl reach_step r) % 2 ^ m ≠ 0 ↔
        ReachOp.receive ∈ ops.drop (ops.length - m)
        ∨ (ops.length < m ∧ r % 2 ^ (m - ops.length) ≠ 0)) := by
  intro ops
  induction ops with
  | nil =>
    intro r
    simp only [List.foldl_nil, List.length_nil, List.drop_nil, List.not_mem_nil,
      false_or, Nat.sub_zero]
    constructor
    · intro h
      refine ⟨?_, h⟩
      rcases Nat.eq_zero_or_pos m with rfl | hpos
      · simp [Nat.mod_one] at h
      · exact hpos
    · rintro ⟨-, h⟩
      exact h
  | cons a rest ih =>
    intro r
    rw [List.foldl_cons, ih (reach_step r a), List.length_cons]
    by_cases hlen : m ≤ rest.length
    · have h1 : rest.length + 1 - m = (rest.length - m) + 1 := by omega
      rw [h1, List.drop_succ_cons]
      have h2 : ¬ rest.length < m := by omega
      have h3 : ¬ rest.length + 1 < m := by omega
      simp [h2, h3]
    · push_neg at hlen
      have h1 : rest.length + 1 - m = 0 := by omega
      have h2 : rest.length - m = 0 := by omega
      rw [h1, h2, List.drop_zero, List.drop_zero]
      cases a with
      | receive =>
        have hne := lor_one_mod_two_pow r (m - rest.length) (by omega)
        have hmem : ReachOp.receive ∈ ReachOp.receive :: rest := List.mem_cons_self _ _
        simp only [reach_step, Reach.received_packet]
        constructor
        · intro _; left; exact hmem
        · intro _; right; exact ⟨hlen, hne⟩
      | send =>
        simp only [reach_step, Reach.poll]
        have hk : m - rest.length ≤ 8 := by omega
        have h256 : (256 : Nat) = 2 ^ 8 := by norm_num
        have hmod : ((r <<< 1) % 256) % 2 ^ (m - rest.length) = (r <<< 1) % 2 ^ (m - rest.length) := by
          rw [h256]
          exact Nat.mod_mod_of_dvd _ (pow_dvd_pow 2 hk)
        rw [hmod, Nat.shiftLeft_eq, pow_one]
        have hmem : (ReachOp.receive ∈ ReachOp.send :: rest) ↔ ReachOp.receive ∈ rest := by
          simp
        by_cases hm2 : rest.length + 1 < m
        · have hk1 : m - rest.length = (m - (rest.length + 1)) + 1 := by omega
          rw [hk1, pow_succ]
          have : r * 2 % (2 ^ (m - (rest.length + 1)) * 2)
              = (r % 2 ^ (m - (rest.length + 1))) * 2 := by
            rw [Nat.mul_comm (2 ^ (m - (rest.length + 1))) 2, Nat.mul_comm r 2,
              Nat.mul_comm (r % 2 ^ (m - (rest.length + 1))) 2]
            exact Nat.mul_mod_mul_left 2 r (2 ^ (m - (rest.length + 1)))
          rw [this]
          constructor
          · rintro (hr | ⟨hlt, hne⟩)
            · left; exact hmem.mpr hr
            · right
              refine ⟨hm2, ?_⟩
              intro hz
              exact hne (by omega)
          · rintro (hr | ⟨hlt, hne⟩)
            · left; exact hmem.mp hr
            · right
              refine ⟨hlen, ?_⟩
              intro hz
              exact hne (by omega)
        · have hmeq : m = rest.length + 1 := by omega
          have hk0 : m - (rest.length + 1) = 0 := by omega
          have hk1 : m - rest.length = 1 := by omega
          rw [hk1, hk0] at *
          simp only [pow_one, pow_zero, Nat.mod_one]
          constructor
          · rintro (hr | ⟨hlt, hne⟩)
            · left; exact hmem.mpr hr
            · exact absurd (Nat.mul_mod_left r 2) hne
          · rintro (hr | ⟨hlt, hne⟩)
            · left; exact hmem.mp hr
            · omega

/-- C8: starting from zero, after any finite sequence of `on_send`
(`Reach::poll`) and `on_receive` (`Reach::received_packet`) events the peer
is reachable iff at least one receive occurs among the last
`min(8, length)` events. -/
theorem reach_c8 (ops : List ReachOp) :
    Reach.is_reachable (reach_run ops) = true ↔
      ReachOp.receive ∈ ops.drop (ops.length - min 8 ops.length) := by
  have hinv := reach_foldl_mod 8 (le_refl 8) ops 0
  have hlt := reach_run_lt ops
  have h256 : (256 : Nat) = 2 ^ 8 := by norm_num
  rw [reach_run] at hlt
  have hmod : (ops.foldl reach_step 0) % 2 ^ 8 = ops.foldl reach_step 0 :=
    Nat.mod_eq_of_lt (by rw [← h256]; exact hlt)
  rw [hmod] at hinv
  simp only [Nat.zero_mod, ne_eq, not_true_eq_false, and_false, or_false] at hinv
  have hmin : ops.length - min 8 ops.length = ops.length - 8 := by omega
  rw [hmin]
  simp only [Reach.is_reachable, decide_eq_true_eq, reach_run]
  exact hinv

end NtpProto
